import Mathlib

/-!
# Task-graph execution engine of the marketing-agent sample

A shallow embedding of the plan-execution engine implemented in
`02-use-cases/08-marketing-agent/main.py` (class `Application`,
methods `execute_plan_direct`, `_execute_single_task`,
`_should_run_reflection`, `_run_reflection`), together with theorems
about its scheduling, failure-handling, retry and reflection behavior.

Conventions of the embedding:
* Python strings become `String`; Python dicts used by the engine
  (`completed_tasks`, `task_results`) are written to at distinct keys
  only, so they are embedded as association lists in insertion order.
* The opaque LLM "agents" and the reflection evaluator are external
  collaborators; they are modelled as an environment `Env` of oracle
  functions, indexed by the retry attempt so that different attempts
  may observe different answers.  An executor failure (a raised
  exception) is an `Except.error` carrying the exception text.
* The `ThreadPoolExecutor` round is sequentialized in ready-set order:
  within one round no task depends on another task of the same round
  (its dependencies are already in `completed_tasks`), so the
  sequential fold is observationally equivalent for every property
  stated here except intra-round completion order, which the source
  itself leaves unspecified.
-/

namespace MarketingAgent

open List

/-- A task record of the plan, as consumed by `execute_plan_direct`
(dict keys `task_id`, `agent`, `description`, `dependencies`). -/
structure Task where
  task_id : String
  agent : String
  description : String
  dependencies : List String
deriving DecidableEq

/-- Status/result maps (`completed_tasks`, `task_results`): Python dicts
written at pairwise-distinct keys, kept in insertion order. -/
abbrev StrMap := List (String × String)

/-- Keys of a map, in insertion order. -/
def keys (m : StrMap) : List String := m.map Prod.fst

/-- Python `k in d` on a dict. -/
def keyMem (m : StrMap) (k : String) : Bool := m.any (fun p => p.1 == k)

/-- Python `d[k]` / `d.get(k)` (first binding; keys are distinct). -/
def lookupStr (m : StrMap) (k : String) : Option String :=
  (m.find? (fun p => p.1 == k)).map Prod.snd

/-- Ids of a task list, in order. -/
def ids (l : List Task) : List String := l.map Task.task_id

deriving instance DecidableEq for Except

/-! ## Python string operations used by the engine -/

/-- Python `s.upper()` (ASCII character-wise, which covers every string
the gate scans). -/
def pyUpper (s : String) : String := ⟨s.data.map Char.toUpper⟩

/-- Python `needle in haystack` (substring containment). -/
def strInfix (needle haystack : String) : Prop :=
  needle.data <:+: haystack.data

instance (n h : String) : Decidable (strInfix n h) := by
  unfold strInfix; infer_instance

/-- Boolean form of `strInfix`, used where the source branches on it. -/
def strContains (needle haystack : String) : Bool :=
  decide (strInfix needle haystack)

/-- Python `sep.join(parts)`. -/
def pyJoin (sep : String) : List String → String
  | [] => ""
  | [s] => s
  | s :: rest => s ++ sep ++ pyJoin sep rest

/-! ## The executors and the execution environment -/

/-- Key set of `Config.agent_configs` (main.py lines 75-81): the known
executor names.  Only membership in the key set is consulted by the
engine, so the configuration modules themselves are not modelled. -/
def agent_configs : List String :=
  ["researcher_agent", "text2sql_agent", "python_agent", "report_agent",
   "reflection_agent"]

/-- The external collaborators (opaque LLM agents and the reflection
evaluator), indexed by the retry attempt so that distinct attempts may
observe distinct answers.  `runAgent attempt agentName prompt` returns
the agent's text or, as `Except.error`, the text of a raised
exception; `reflect attempt prompt` is the reflection agent's output. -/
structure Env where
  runAgent : Nat → String → String → Except String String
  reflect : Nat → String → String

/-! ## Context building (`_execute_single_task`, main.py lines 394-434) -/

/-- `'='*60`. -/
def eq60 : String := String.mk (List.replicate 60 (Char.ofNat 61))

/-- `'='*80`. -/
def eq80 : String := String.mk (List.replicate 80 (Char.ofNat 61))

/-- One entry of `context_parts` for dependency id `d` with result text
`v` (main.py lines 398-412): the structured form when the dependency's
task record is found in `all_tasks`, the short form otherwise. -/
def mkPart (d v : String) : Option Task → String
  | some dt =>
      "=== RESULTS FROM: " ++ pyUpper d ++ " (" ++ dt.agent ++ ") ===\n" ++
      "Task Description: " ++ dt.description ++ "\n" ++
      "Results:\n" ++ v ++ "\n" ++ eq60
  | none => "Results from " ++ d ++ ":\n" ++ v

/-- `context_parts` (main.py lines 395-412): one entry per declared
dependency that has a recorded result, in declared order. -/
def contextParts (t : Task) (task_results : StrMap) (all_tasks : List Task) :
    List String :=
  t.dependencies.filterMap fun d =>
    (lookupStr task_results d).map fun v =>
      mkPart d v (all_tasks.find? (fun a => a.task_id == d))

/-- The separator of the `str.join` at main.py lines 416-419.  Python
concatenates the adjacent literals `"CONTEXT FROM PREVIOUS TASKS:\n"`,
`"{'='*80}\n"` and `"\n\n"` before applying `.join`, so this whole
header acts as the join separator. -/
def joinSep : String := "CONTEXT FROM PREVIOUS TASKS:\n" ++ eq80 ++ "\n\n\n"

/-- The literal suffix appended after the joined context parts
(main.py lines 419-423). -/
def promptSuffix (t : Task) : String :=
  "\n\n" ++ eq80 ++ "\n" ++ "YOUR CURRENT TASK:\n" ++ t.description ++
  "\n\n" ++ "IMPORTANT: Use the context above to inform your work. " ++
  "Reference specific findings and build upon previous results."

/-- The prompt handed to the task's agent (main.py lines 414-434):
the joined context blob plus the task description, or the bare
description when there is no context; `report_agent` tasks are
additionally prefixed with the original user request. -/
def buildPrompt (t : Task) (task_results : StrMap) (user_query : String)
    (all_tasks : List Task) : String :=
  let parts := contextParts t task_results all_tasks
  let task_prompt :=
    if parts = [] then t.description
    else pyJoin joinSep parts ++ promptSuffix t
  if t.agent == "report_agent" then
    "ORIGINAL USER REQUEST: " ++ user_query ++ "\n\n" ++ task_prompt
  else task_prompt

/-- An ASCII apostrophe, used in the unknown-agent exception text. -/
def squote : String := String.mk [Char.ofNat 39]

/-- Text of the exception raised at main.py line 364. -/
def unknownAgentMsg (agent : String) : String :=
  "Unknown agent: " ++ squote ++ agent ++ squote

/-- `_execute_single_task` (main.py lines 358-442): raises (returns
`Except.error`) when the task names an unknown agent, otherwise builds
the context prompt and invokes the opaque agent. -/
def executeSingleTask (env : Env) (attempt : Nat) (t : Task)
    (task_results : StrMap) (user_query : String) (all_tasks : List Task) :
    Except String String :=
  if agent_configs.contains t.agent then
    env.runAgent attempt t.agent (buildPrompt t task_results user_query all_tasks)
  else
    .error (unknownAgentMsg t.agent)

/-! ## One attempt of the main loop (`execute_plan_direct`, lines 215-294) -/

/-- Mutable state of one attempt: `completed_tasks` (status map),
`task_results` (result map) and `execution_order` grouped into the
ready sets (rounds) the while-loop dispatched, in dispatch order.
`execution_order` of the source is the flattening of `rounds`. -/
structure EngState where
  completed : StrMap
  results : StrMap
  rounds : List (List Task)
deriving DecidableEq

/-- The fresh state built at the start of every attempt. -/
def freshState : EngState := ⟨[], [], []⟩

/-- Recording one finished task (main.py lines 255-273 and 280-294):
a normal return is recorded as `COMPLETED` with the result text, a
raised exception as `FAILED` with `"Error: " ++ text` as the result. -/
def processTask (env : Env) (attempt : Nat) (user_query : String)
    (all_tasks : List Task) (st : EngState) (t : Task) : EngState :=
  match executeSingleTask env attempt t st.results user_query all_tasks with
  | .ok r =>
      { st with
        completed := st.completed ++ [(t.task_id, "COMPLETED")]
        results := st.results ++ [(t.task_id, r)] }
  | .error e =>
      { st with
        completed := st.completed ++ [(t.task_id, "FAILED")]
        results := st.results ++ [(t.task_id, "Error: " ++ e)] }

/-- The ready set (main.py lines 221-225): remaining tasks all of whose
declared dependencies already carry a status in `completed_tasks`. -/
def readyOf (st : EngState) (remaining : List Task) : List Task :=
  remaining.filter fun t => t.dependencies.all (keyMem st.completed)

/-- Dispatching one ready set: every ready task is executed and
recorded (the single-task branch and the thread-pool branch of main.py
lines 233-294 both process the whole ready set before the next loop
iteration), and the ready set is appended as a new round. -/
def roundStep (env : Env) (attempt : Nat) (user_query : String)
    (all_tasks : List Task) (st : EngState) (ready : List Task) : EngState :=
  ready.foldl (processTask env attempt user_query all_tasks)
    { st with rounds := st.rounds ++ [ready] }

/-- Result of one attempt: `stuck` is the early `return` of main.py
lines 227-231 (empty ready set with tasks remaining), `done` is normal
loop exit with all tasks processed. -/
inductive AttemptResult where
  | stuck (st : EngState)
  | done (st : EngState)
deriving DecidableEq

/-- The per-attempt state regardless of how the attempt ended. -/
def attemptState : AttemptResult → EngState
  | .stuck st => st
  | .done st => st

/-- `remaining_tasks.remove(task)` applied once per processed task
(main.py lines 262, 273, 278). -/
def eraseAll (ts l : List Task) : List Task :=
  ts.foldl (fun r t => r.erase t) l

/-- The while-loop of main.py lines 219-294, with explicit fuel.  Each
iteration either returns (`stuck`) or strictly shrinks `remaining`, so
fuel `remaining.length` always suffices (`runRoundsF_fuel_eq`); the
fuel-exhausted branch is unreachable from `runAttemptFrom`. -/
def runRoundsF (env : Env) (attempt : Nat) (user_query : String)
    (all_tasks : List Task) : Nat → List Task → EngState → AttemptResult
  | _, [], st => .done st
  | 0, _ :: _, st => .stuck st
  | fuel + 1, rem@(_ :: _), st =>
      let ready := readyOf st rem
      if ready = [] then .stuck st
      else
        runRoundsF env attempt user_query all_tasks fuel
          (eraseAll ready rem)
          (roundStep env attempt user_query all_tasks st ready)

/-- One attempt over the full task list (`remaining_tasks = tasks.copy()`),
starting from the given status/result maps. -/
def runAttemptFrom (env : Env) (attempt : Nat) (user_query : String)
    (tasks : List Task) (completed results : StrMap) : AttemptResult :=
  runRoundsF env attempt user_query tasks tasks.length tasks
    ⟨completed, results, []⟩

/-! ## Reflection gate and retry loop (main.py lines 197-328, 444-487) -/

/-- `max_retries` (main.py line 197). -/
def max_retries : Nat := 2

/-- `_should_run_reflection` (main.py lines 444-452). -/
def shouldRunReflection (tasks : List Task) : Bool :=
  2 ≤ (tasks.filter fun t =>
    ["researcher_agent", "python_agent", "text2sql_agent"].contains t.agent).length

/-- The prompt built by `_run_reflection` (main.py lines 470-483). -/
def reflectionPrompt (user_query : String) (task_results : StrMap)
    (execution_order : List Task) : String :=
  "Original Request: " ++ user_query ++ "\n\nTask Results:\n" ++
  pyJoin "\n\n" (execution_order.map fun t =>
    "Task: " ++ t.task_id ++ " (" ++ t.agent ++ ")\nResult: " ++
    (lookupStr task_results t.task_id).getD "No result") ++
  "\n\nPlease evaluate the quality and completeness of these results."

/-- Decision of the reflection gate. -/
inductive GateDecision where
  | proceedStop
  | retryRestart
  | acceptWarn
deriving DecidableEq

/-- The token scan of main.py lines 301-325: `PROCEED` anywhere in the
upper-cased output accepts; otherwise `RETRY` with attempts remaining
restarts; anything else (including `RETRY` with no attempts left)
accepts with a warning. -/
def classifyReflection (retry_count maxR : Nat) (text : String) : GateDecision :=
  if strContains "PROCEED" (pyUpper text) then .proceedStop
  else if strContains "RETRY" (pyUpper text) && decide (retry_count < maxR) then
    .retryRestart
  else .acceptWarn

/-- One row of the final summary table (main.py lines 342-354):
task id, agent name, and `completed_tasks.get(task_id, "UNKNOWN")`. -/
def mkSummary (st : EngState) : List (String × String × String) :=
  st.rounds.flatten.map fun t =>
    (t.task_id, t.agent, (lookupStr st.completed t.task_id).getD "UNKNOWN")

/-- Observable outcome of `execute_plan_direct`: the structural-error
`return` at lines 227-231 produces no summary; normal completion
prints the summary table.  `attempt` is the `retry_count` at exit. -/
inductive EngineResult where
  | structuralError (attempt : Nat) (st : EngState)
  | finished (attempt : Nat) (st : EngState)
      (summary : List (String × String × String))
deriving DecidableEq

/-- The `for retry_count in range(max_retries + 1)` loop of main.py
lines 199-328, with fuel `attemptsLeft = max_retries + 1 - retry_count`
(positive at every entry, so the fuel-exhausted branch is unreachable
from `engineRun`).  On `retry_count > 0` the status and result maps
are reset (lines 210-213); a `RETRY` classification with attempts
remaining continues the loop, everything else breaks to the summary. -/
def retryLoopF (env : Env) (user_query : String) (tasks : List Task) :
    Nat → Nat → StrMap → StrMap → EngineResult
  | 0, retry_count, _, _ => .structuralError retry_count freshState
  | left + 1, retry_count, completed0, results0 =>
      let completed := if 0 < retry_count then [] else completed0
      let results := if 0 < retry_count then [] else results0
      match runAttemptFrom env retry_count user_query tasks completed results with
      | .stuck st => .structuralError retry_count st
      | .done st =>
          if shouldRunReflection tasks then
            match classifyReflection retry_count max_retries
                (env.reflect retry_count
                  (reflectionPrompt user_query st.results st.rounds.flatten)) with
            | .retryRestart =>
                retryLoopF env user_query tasks left (retry_count + 1)
                  st.completed st.results
            | .proceedStop => .finished retry_count st (mkSummary st)
            | .acceptWarn => .finished retry_count st (mkSummary st)
          else .finished retry_count st (mkSummary st)

/-- `execute_plan_direct` (main.py lines 193-356). -/
def engineRun (env : Env) (user_query : String) (tasks : List Task) :
    EngineResult :=
  retryLoopF env user_query tasks (max_retries + 1) 0 [] []

/-- The outcome of attempt `k` run from fresh (empty) state, as the
engine's result if the loop stops at attempt `k`. -/
def pureAttemptResult (env : Env) (user_query : String) (tasks : List Task)
    (k : Nat) : EngineResult :=
  match runAttemptFrom env k user_query tasks [] [] with
  | .stuck st => .structuralError k st
  | .done st => .finished k st (mkSummary st)

/-! ## Concrete environments and batches used to instantiate theorems -/

/-- An environment whose agents all succeed and whose evaluator
approves. -/
def okEnv : Env :=
  ⟨fun _ _ _ => .ok "done", fun _ _ => "PROCEED"⟩

/-- An environment whose agents all raise `boom` and whose evaluator
approves. -/
def failEnv : Env :=
  ⟨fun _ _ _ => .error "boom", fun _ _ => "PROCEED"⟩

/-- An environment whose agents succeed and whose evaluator always
demands a retry. -/
def retryEnv : Env :=
  ⟨fun _ _ _ => .ok "done", fun _ _ => "RETRY"⟩

/-- Two-task chain: `tB` depends on `tA`. -/
def tA : Task := ⟨"task_a", "researcher_agent", "research things", []⟩

def tB : Task := ⟨"task_b", "python_agent", "analyze things", ["task_a"]⟩

/-- A task naming an executor that is not in `agent_configs`. -/
def tBogus : Task := ⟨"task_x", "bogus_agent", "do something", []⟩

/-- A task whose dependency names no task of the batch. -/
def tDangling : Task := ⟨"task_d", "report_agent", "write it up", ["missing"]⟩

/-! ## The dispatch-ordering invariant -/

/-- `roundsOKFrom done rs`: every task of every ready set in `rs` has
all of its declared dependencies among `done` plus the ids of the
ready sets dispatched before it. -/
def roundsOKFrom (done : List String) : List (List Task) → Prop
  | [] => True
  | r :: rs =>
      (∀ t ∈ r, ∀ d ∈ t.dependencies, d ∈ done) ∧
      roundsOKFrom (done ++ ids r) rs

def GoodState (st : EngState) : Prop :=
  keys st.completed = ids st.rounds.flatten ∧
  (∀ p ∈ st.completed, p.2 = "COMPLETED" ∨ p.2 = "FAILED") ∧
  roundsOKFrom [] st.rounds

/-! ## Liveness under an acyclic, in-batch dependency relation -/

/-- Acyclicity plus in-batch dependencies, witnessed by a rank
function: every dependency of a batch task is the id of a batch task
of strictly smaller rank. -/
def RankOK (rank : String → Nat) (tasks : List Task) : Prop :=
  ∀ t ∈ tasks, ∀ d ∈ t.dependencies,
    (∃ u ∈ tasks, u.task_id = d) ∧ rank d < rank t.task_id

/-- A dependency-free task bound to the report executor. -/
def tReport : Task := ⟨"task_r", "report_agent", "write it up", []⟩

/-! ## The bounded worker pool (`ThreadPoolExecutor`, main.py lines 241-254) -/

/-- State of the worker pool dispatching one ready set: tasks not yet
started, tasks currently in flight, tasks finished. -/
structure PoolState where
  queued : List Task
  running : List Task
  finished : List Task
deriving DecidableEq

/-- `max_workers = min(len(ready_tasks), 3)` (main.py line 242). -/
def max_workers (ready : List Task) : Nat := min ready.length 3

/-- Transition relation of `concurrent.futures.ThreadPoolExecutor`
with `max_workers = cap`, per the library's contract (the one
component modelled from documented library semantics rather than
repository code): a submitted task may start only while fewer than
`cap` tasks are in flight — tasks beyond the cap wait for a slot — and
an in-flight task may finish at any time, in any order. -/
inductive PoolStep (cap : Nat) : PoolState → PoolState → Prop
  | start (t : Task) (qs run fin : List Task) :
      run.length < cap →
      PoolStep cap ⟨t :: qs, run, fin⟩ ⟨qs, t :: run, fin⟩
  | finish (t : Task) (qs run1 run2 fin : List Task) :
      PoolStep cap ⟨qs, run1 ++ t :: run2, fin⟩ ⟨qs, run1 ++ run2, t :: fin⟩

/-- The pool state at the moment the ready set has been submitted
(main.py lines 244-253) and no worker has started yet. -/
def poolInit (ready : List Task) : PoolState := ⟨ready, [], []⟩

/-! ## Basic lemmas -/

theorem keyMem_iff (m : StrMap) (k : String) :
    keyMem m k = true ↔ k ∈ keys m := by
  unfold keyMem keys
  rw [List.any_eq_true]
  constructor
  · rintro ⟨p, hp, he⟩
    rw [beq_iff_eq] at he
    exact he ▸ List.mem_map_of_mem Prod.fst hp
  · intro hk
    rcases List.mem_map.1 hk with ⟨p, hp, he⟩
    exact ⟨p, hp, by rw [beq_iff_eq, he]⟩

theorem strData_append (s t : String) : (s ++ t).data = s.data ++ t.data := by
  cases s; cases t; rfl

theorem strInfix_refl (s : String) : strInfix s s :=
  List.infix_refl s.data

theorem strInfix_trans {a b c : String} (h1 : strInfix a b) (h2 : strInfix b c) :
    strInfix a c :=
  List.IsInfix.trans h1 h2

theorem strInfix_append_left {n b : String} (a : String) (h : strInfix n b) :
    strInfix n (a ++ b) := by
  unfold strInfix at *
  rw [strData_append]
  exact h.trans (List.suffix_append a.data b.data).isInfix

theorem strInfix_append_right {n a : String} (b : String) (h : strInfix n a) :
    strInfix n (a ++ b) := by
  unfold strInfix at *
  rw [strData_append]
  exact h.trans (List.prefix_append a.data b.data).isInfix

theorem strInfix_pyJoin (sep x : String) :
    ∀ parts : List String, x ∈ parts → strInfix x (pyJoin sep parts) := by
  intro parts
  induction parts with
  | nil => intro h; cases h
  | cons a rest ih =>
    intro hx
    rcases List.mem_cons.1 hx with h | h
    · subst h
      cases rest with
      | nil => exact strInfix_refl x
      | cons b t =>
        show strInfix x (x ++ sep ++ pyJoin sep (b :: t))
        exact strInfix_append_right _ (strInfix_append_right _ (strInfix_refl x))
    · cases rest with
      | nil => cases h
      | cons b t =>
        show strInfix x (a ++ sep ++ pyJoin sep (b :: t))
        exact strInfix_append_left _ (ih h)

theorem pyUpper_append (a b : String) :
    pyUpper (a ++ b) = pyUpper a ++ pyUpper b := by
  cases a with | mk l1 => cases b with | mk l2 =>
  show String.mk (List.map Char.toUpper (l1 ++ l2)) = _
  rw [List.map_append]
  rfl

/-! ## Lemmas about the reflection gate and the retry loop -/

theorem strContains_iff (n h : String) :
    strContains n h = true ↔ strInfix n h := by
  unfold strContains
  exact decide_eq_true_iff

theorem strInfix_mid (a x b : String) : strInfix x (a ++ x ++ b) :=
  strInfix_append_right b (strInfix_append_left a (strInfix_refl x))

theorem classifyReflection_proceed {k maxR : Nat} {text : String}
    (h : strInfix "PROCEED" (pyUpper text)) :
    classifyReflection k maxR text = .proceedStop := by
  have hP : strContains "PROCEED" (pyUpper text) = true :=
    (strContains_iff _ _).2 h
  simp [classifyReflection, hP]

theorem classifyReflection_retry {k maxR : Nat} {text : String}
    (hp : ¬ strInfix "PROCEED" (pyUpper text))
    (hr : strInfix "RETRY" (pyUpper text)) (hk : k < maxR) :
    classifyReflection k maxR text = .retryRestart := by
  have hP : strContains "PROCEED" (pyUpper text) = false := by
    rw [Bool.eq_false_iff]
    intro hc
    exact hp ((strContains_iff _ _).1 hc)
  have hR : strContains "RETRY" (pyUpper text) = true :=
    (strContains_iff _ _).2 hr
  simp [classifyReflection, hP, hR, hk]

theorem classifyReflection_warn {k maxR : Nat} {text : String}
    (hp : ¬ strInfix "PROCEED" (pyUpper text))
    (h : ¬ strInfix "RETRY" (pyUpper text) ∨ ¬ k < maxR) :
    classifyReflection k maxR text = .acceptWarn := by
  have hP : strContains "PROCEED" (pyUpper text) = false := by
    rw [Bool.eq_false_iff]
    intro hc
    exact hp ((strContains_iff _ _).1 hc)
  rcases h with h | h
  · have hR : strContains "RETRY" (pyUpper text) = false := by
      rw [Bool.eq_false_iff]
      intro hc
      exact h ((strContains_iff _ _).1 hc)
    simp [classifyReflection, hP, hR]
  · simp [classifyReflection, hP, h]

theorem classifyReflection_retry_lt {k maxR : Nat} {text : String}
    (h : classifyReflection k maxR text = .retryRestart) : k < maxR := by
  unfold classifyReflection at h
  by_cases h1 : strContains "PROCEED" (pyUpper text) = true
  · rw [if_pos h1] at h; cases h
  · rw [if_neg h1] at h
    by_cases h2 : (strContains "RETRY" (pyUpper text) && decide (k < maxR)) = true
    · exact of_decide_eq_true (Bool.and_eq_true .. ▸ h2).2
    · rw [if_neg h2] at h; cases h

/-- Unfolding equation for one iteration of the retry loop. -/
theorem retryLoopF_succ (env : Env) (q : String) (tasks : List Task)
    (l k : Nat) (c r : StrMap) :
    retryLoopF env q tasks (l + 1) k c r =
      match runAttemptFrom env k q tasks (if 0 < k then [] else c)
          (if 0 < k then [] else r) with
      | .stuck st => .structuralError k st
      | .done st =>
          if shouldRunReflection tasks then
            match classifyReflection k max_retries
                (env.reflect k
                  (reflectionPrompt q st.results st.rounds.flatten)) with
            | .retryRestart =>
                retryLoopF env q tasks l (k + 1) st.completed st.results
            | .proceedStop => .finished k st (mkSummary st)
            | .acceptWarn => .finished k st (mkSummary st)
          else .finished k st (mkSummary st) := rfl

/-- The retry-loop iteration on a structurally failed attempt. -/
theorem retryLoopF_succ_stuck (env : Env) (q : String) (tasks : List Task)
    (l k : Nat) (c r : StrMap) (st : EngState)
    (hrun : runAttemptFrom env k q tasks (if 0 < k then [] else c)
      (if 0 < k then [] else r) = .stuck st) :
    retryLoopF env q tasks (l + 1) k c r = .structuralError k st := by
  rw [retryLoopF_succ, hrun]

/-- The retry-loop iteration on a completed attempt. -/
theorem retryLoopF_succ_done (env : Env) (q : String) (tasks : List Task)
    (l k : Nat) (c r : StrMap) (st : EngState)
    (hrun : runAttemptFrom env k q tasks (if 0 < k then [] else c)
      (if 0 < k then [] else r) = .done st) :
    retryLoopF env q tasks (l + 1) k c r =
      if shouldRunReflection tasks then
        match classifyReflection k max_retries
            (env.reflect k (reflectionPrompt q st.results st.rounds.flatten)) with
        | .retryRestart =>
            retryLoopF env q tasks l (k + 1) st.completed st.results
        | .proceedStop => .finished k st (mkSummary st)
        | .acceptWarn => .finished k st (mkSummary st)
      else .finished k st (mkSummary st) := by
  rw [retryLoopF_succ, hrun]

/-- The retry loop always stops at some attempt `j ≤ max_retries`, and
its result is exactly the outcome of attempt `j` run from fresh state:
attempt 0 starts from the maps created empty at main.py lines 195-196,
and every later attempt from the reset at lines 210-213, so nothing an
earlier attempt wrote is visible in the loop's result. -/
theorem retryLoopF_pure (env : Env) (q : String) (tasks : List Task) :
    ∀ left k completed results, 0 < left → k + left = max_retries + 1 →
      (k = 0 → completed = [] ∧ results = []) →
      ∃ j, k ≤ j ∧ j ≤ max_retries ∧
        retryLoopF env q tasks left k completed results =
          pureAttemptResult env q tasks j := by
  intro left
  induction left with
  | zero => intro k c r h0 _ _; cases h0
  | succ l ih =>
    intro k c r _ hsum hres
    have hc : (if 0 < k then ([] : StrMap) else c) = [] := by
      rcases Nat.eq_zero_or_pos k with hk | hk
      · rw [if_neg (by omega)]; exact (hres hk).1
      · rw [if_pos hk]
    have hr : (if 0 < k then ([] : StrMap) else r) = [] := by
      rcases Nat.eq_zero_or_pos k with hk | hk
      · rw [if_neg (by omega)]; exact (hres hk).2
      · rw [if_pos hk]
    have hk_le : k ≤ max_retries := by omega
    cases hrun : runAttemptFrom env k q tasks [] [] with
    | stuck st =>
      have heq := retryLoopF_succ_stuck env q tasks l k c r st
        (by rw [hc, hr]; exact hrun)
      refine ⟨k, le_refl k, hk_le, ?_⟩
      rw [heq]
      simp only [pureAttemptResult, hrun]
    | done st =>
      have heq := retryLoopF_succ_done env q tasks l k c r st
        (by rw [hc, hr]; exact hrun)
      by_cases hrefl : shouldRunReflection tasks
      · rw [heq, if_pos hrefl]
        cases hcl : classifyReflection k max_retries
            (env.reflect k (reflectionPrompt q st.results st.rounds.flatten)) with
        | retryRestart =>
          have hklt : k < max_retries := classifyReflection_retry_lt hcl
          have hl : 0 < l := by omega
          rcases ih (k + 1) st.completed st.results hl (by omega)
              (by omega) with ⟨j, hj1, hj2, hj3⟩
          exact ⟨j, by omega, hj2, hj3⟩
        | proceedStop =>
          refine ⟨k, le_refl k, hk_le, ?_⟩
          simp only [pureAttemptResult, hrun]
        | acceptWarn =>
          refine ⟨k, le_refl k, hk_le, ?_⟩
          simp only [pureAttemptResult, hrun]
      · rw [heq, if_neg hrefl]
        refine ⟨k, le_refl k, hk_le, ?_⟩
        simp only [pureAttemptResult, hrun]

/-- The engine's result is the fresh-state outcome of some attempt
`j ≤ max_retries`. -/
theorem engineRun_pure (env : Env) (q : String) (tasks : List Task) :
    ∃ j, j ≤ max_retries ∧
      engineRun env q tasks = pureAttemptResult env q tasks j := by
  rcases retryLoopF_pure env q tasks (max_retries + 1) 0 [] []
      (by omega) (by omega) (fun _ => ⟨rfl, rfl⟩) with ⟨j, _, hj2, hj3⟩
  exact ⟨j, hj2, hj3⟩

/-! ## Lemmas about `eraseAll` and one processing round -/

theorem eraseAll_cons (t : Task) (ts l : List Task) :
    eraseAll (t :: ts) l = eraseAll ts (l.erase t) := rfl

theorem eraseAll_sublist (ts : List Task) : ∀ l, eraseAll ts l <+ l := by
  induction ts with
  | nil => intro l; exact List.Sublist.refl l
  | cons t ts ih =>
    intro l
    exact (ih (l.erase t)).trans (List.erase_sublist t l)

theorem mem_of_not_mem_eraseAll {x : Task} (ts : List Task) :
    ∀ l, x ∈ l → x ∉ eraseAll ts l → x ∈ ts := by
  induction ts with
  | nil => intro l h1 h2; exact absurd h1 h2
  | cons t ts ih =>
    intro l h1 h2
    by_cases hx : x = t
    · exact hx ▸ List.mem_cons_self t ts
    · have hx2 : x ∈ l.erase t := (List.mem_erase_of_ne hx).2 h1
      exact List.mem_cons_of_mem t (ih _ hx2 h2)

theorem eraseAll_length_lt (a : Task) (ts l : List Task) (ha : a ∈ l) :
    (eraseAll (a :: ts) l).length < l.length := by
  have h1 : (eraseAll ts (l.erase a)).length ≤ (l.erase a).length :=
    (eraseAll_sublist ts (l.erase a)).length_le
  have h2 : (l.erase a).length = l.length - 1 := List.length_erase_of_mem ha
  have h3 : 0 < l.length := List.length_pos_of_mem ha
  rw [eraseAll_cons]
  omega

theorem perm_ids_eraseAll :
    ∀ ready rem : List Task, rem.Nodup → ready.Nodup →
      (∀ t ∈ ready, t ∈ rem) →
      (ids ready ++ ids (eraseAll ready rem)).Perm (ids rem) := by
  intro ready
  induction ready with
  | nil =>
    intro rem _ _ _
    simp [eraseAll, ids]
  | cons t ts ih =>
    intro rem hnd hndr hsub
    have ht : t ∈ rem := hsub t (List.mem_cons_self t ts)
    have hts_sub : ∀ u ∈ ts, u ∈ rem.erase t := by
      intro u hu
      have hne : u ≠ t := by
        intro he
        exact (List.nodup_cons.1 hndr).1 (he ▸ hu)
      exact (List.mem_erase_of_ne hne).2 (hsub u (List.mem_cons_of_mem t hu))
    have ihp := ih (rem.erase t) (hnd.erase t) (List.nodup_cons.1 hndr).2 hts_sub
    have hperm : ids rem ~ t.task_id :: ids (rem.erase t) :=
      (List.perm_cons_erase ht).map Task.task_id
    calc ids (t :: ts) ++ ids (eraseAll (t :: ts) rem)
        = t.task_id :: (ids ts ++ ids (eraseAll ts (rem.erase t))) := by
          rw [eraseAll_cons]; rfl
      _ ~ t.task_id :: ids (rem.erase t) := ihp.cons t.task_id
      _ ~ ids rem := hperm.symm

theorem processTask_cases (env : Env) (k : Nat) (q : String)
    (allT : List Task) (st : EngState) (t : Task) :
    ∃ s v, (s = "COMPLETED" ∨ s = "FAILED") ∧
      processTask env k q allT st t =
        { st with completed := st.completed ++ [(t.task_id, s)]
                  results := st.results ++ [(t.task_id, v)] } := by
  unfold processTask
  cases executeSingleTask env k t st.results q allT with
  | ok r => exact ⟨"COMPLETED", r, Or.inl rfl, rfl⟩
  | error e => exact ⟨"FAILED", "Error: " ++ e, Or.inr rfl, rfl⟩

theorem foldl_processTask_spec (env : Env) (k : Nat) (q : String)
    (allT : List Task) :
    ∀ (l : List Task) (st : EngState),
      keys (l.foldl (processTask env k q allT) st).completed =
          keys st.completed ++ ids l ∧
      (l.foldl (processTask env k q allT) st).rounds = st.rounds ∧
      (∀ p ∈ (l.foldl (processTask env k q allT) st).completed,
        p ∈ st.completed ∨ p.2 = "COMPLETED" ∨ p.2 = "FAILED") := by
  intro l
  induction l with
  | nil =>
    intro st
    exact ⟨by simp [ids], rfl, fun p hp => Or.inl hp⟩
  | cons t l ih =>
    intro st
    rcases processTask_cases env k q allT st t with ⟨s, v, hs, hpt⟩
    have hfold : (t :: l).foldl (processTask env k q allT) st =
        l.foldl (processTask env k q allT) (processTask env k q allT st t) := rfl
    rcases ih (processTask env k q allT st t) with ⟨ihk, ihr, ihv⟩
    refine ⟨?_, ?_, ?_⟩
    · rw [hfold, ihk, hpt]
      simp [keys, ids, List.map_append]
    · rw [hfold, ihr, hpt]
    · intro p hp
      rw [hfold] at hp
      rcases ihv p hp with h | h
      · rw [hpt] at h
        simp only [List.mem_append] at h
        rcases h with h | h
        · exact Or.inl h
        · simp only [List.mem_singleton] at h
          subst h
          exact Or.inr hs
      · exact Or.inr h

theorem roundStep_keys (env : Env) (k : Nat) (q : String) (allT : List Task)
    (st : EngState) (ready : List Task) :
    keys (roundStep env k q allT st ready).completed =
      keys st.completed ++ ids ready :=
  (foldl_processTask_spec env k q allT ready _).1

theorem roundStep_rounds (env : Env) (k : Nat) (q : String) (allT : List Task)
    (st : EngState) (ready : List Task) :
    (roundStep env k q allT st ready).rounds = st.rounds ++ [ready] :=
  (foldl_processTask_spec env k q allT ready _).2.1

theorem roundStep_values (env : Env) (k : Nat) (q : String) (allT : List Task)
    (st : EngState) (ready : List Task)
    (h : ∀ p ∈ st.completed, p.2 = "COMPLETED" ∨ p.2 = "FAILED") :
    ∀ p ∈ (roundStep env k q allT st ready).completed,
      p.2 = "COMPLETED" ∨ p.2 = "FAILED" := by
  intro p hp
  rcases (foldl_processTask_spec env k q allT ready _).2.2 p hp with h2 | h2
  · exact h p h2
  · exact h2

/-! ## Unfolding and fuel lemmas for the attempt loop -/

theorem runRoundsF_succ_cons (env : Env) (k : Nat) (q : String)
    (allT : List Task) (fuel : Nat) (a : Task) (l : List Task) (st : EngState) :
    runRoundsF env k q allT (fuel + 1) (a :: l) st =
      if readyOf st (a :: l) = [] then .stuck st
      else runRoundsF env k q allT fuel
        (eraseAll (readyOf st (a :: l)) (a :: l))
        (roundStep env k q allT st (readyOf st (a :: l))) := rfl

theorem readyOf_ne_nil_head_mem {st : EngState} {rem : List Task}
    (h : readyOf st rem ≠ []) :
    ∃ b ts, readyOf st rem = b :: ts ∧ b ∈ rem := by
  cases hr : readyOf st rem with
  | nil => exact absurd hr h
  | cons b ts =>
    refine ⟨b, ts, rfl, ?_⟩
    have hb : b ∈ readyOf st rem := hr ▸ List.mem_cons_self b ts
    exact List.mem_of_mem_filter hb

theorem runRoundsF_fuel_eq (env : Env) (k : Nat) (q : String)
    (allT : List Task) :
    ∀ f1 f2 (rem : List Task) (st : EngState),
      rem.length ≤ f1 → rem.length ≤ f2 →
      runRoundsF env k q allT f1 rem st = runRoundsF env k q allT f2 rem st := by
  intro f1
  induction f1 with
  | zero =>
    intro f2 rem st h1 _
    have hnil : rem = [] := List.length_eq_zero.1 (Nat.le_zero.1 h1)
    subst hnil
    cases f2 <;> rfl
  | succ f ih =>
    intro f2 rem st h1 h2
    cases rem with
    | nil => cases f2 <;> rfl
    | cons a l =>
      cases f2 with
      | zero => simp at h2
      | succ f2 =>
        rw [runRoundsF_succ_cons, runRoundsF_succ_cons]
        by_cases hready : readyOf st (a :: l) = []
        · rw [if_pos hready, if_pos hready]
        · rw [if_neg hready, if_neg hready]
          rcases readyOf_ne_nil_head_mem hready with ⟨b, ts, hbts, hb⟩
          have hlt : (eraseAll (readyOf st (a :: l)) (a :: l)).length <
              (a :: l).length := by
            rw [hbts]
            exact eraseAll_length_lt b ts (a :: l) hb
          have hlen : (a :: l).length = l.length + 1 := rfl
          exact ih f2 _ _ (by omega) (by omega)

/-- An empty ready set with tasks remaining stops the attempt at once
with a structural failure, whatever the fuel. -/
theorem runRoundsF_stuck_of_no_ready (env : Env) (k : Nat) (q : String)
    (allT : List Task) (fuel : Nat) (rem : List Task) (st : EngState)
    (hne : rem ≠ []) (hready : readyOf st rem = []) :
    runRoundsF env k q allT fuel rem st = .stuck st := by
  cases rem with
  | nil => exact absurd rfl hne
  | cons a l =>
    cases fuel with
    | zero => rfl
    | succ f => rw [runRoundsF_succ_cons, if_pos hready]

theorem roundsOKFrom_append (rs1 : List (List Task)) :
    ∀ (d : List String) (rs2 : List (List Task)),
      roundsOKFrom d (rs1 ++ rs2) ↔
        roundsOKFrom d rs1 ∧ roundsOKFrom (d ++ ids rs1.flatten) rs2 := by
  induction rs1 with
  | nil =>
    intro d rs2
    simp [roundsOKFrom, ids]
  | cons r rs ih =>
    intro d rs2
    have hids : ids (r ++ rs.flatten) = ids r ++ ids rs.flatten := by
      simp [ids]
    rw [List.cons_append]
    show ((∀ t ∈ r, ∀ d2 ∈ t.dependencies, d2 ∈ d) ∧
        roundsOKFrom (d ++ ids r) (rs ++ rs2)) ↔
      ((∀ t ∈ r, ∀ d2 ∈ t.dependencies, d2 ∈ d) ∧
        roundsOKFrom (d ++ ids r) rs) ∧
      roundsOKFrom (d ++ ids (r :: rs).flatten) rs2
    rw [ih, List.flatten_cons, hids, ← List.append_assoc]
    tauto

/-- The state invariant preserved by the attempt loop: recorded
statuses cover exactly the dispatched rounds, every status is
terminal, and every round was ready when dispatched. -/
theorem goodState_fresh : GoodState freshState :=
  ⟨rfl, fun p hp => absurd hp (List.not_mem_nil p), trivial⟩

theorem roundStep_good (env : Env) (k : Nat) (q : String) (allT : List Task)
    (st : EngState) (rem : List Task) (h : GoodState st) :
    GoodState (roundStep env k q allT st (readyOf st rem)) := by
  rcases h with ⟨h1, h2, h3⟩
  refine ⟨?_, roundStep_values env k q allT st _ h2, ?_⟩
  · rw [roundStep_keys, roundStep_rounds, h1]
    simp [ids, List.flatten_append]
  · rw [roundStep_rounds, roundsOKFrom_append]
    refine ⟨h3, ?_⟩
    show (∀ t ∈ readyOf st rem, ∀ d ∈ t.dependencies,
        d ∈ [] ++ ids st.rounds.flatten) ∧ True
    refine ⟨?_, trivial⟩
    intro t ht d hd
    have hall : t.dependencies.all (keyMem st.completed) = true :=
      (List.mem_filter.1 ht).2
    have hk : keyMem st.completed d = true := (List.all_eq_true.1 hall) d hd
    rw [keyMem_iff, h1] at hk
    simpa using hk

/-- The invariant holds at the end of the attempt, whether it finished
or got stuck. -/
theorem runRoundsF_good (env : Env) (k : Nat) (q : String) (allT : List Task) :
    ∀ (fuel : Nat) (rem : List Task) (st : EngState), GoodState st →
      GoodState (attemptState (runRoundsF env k q allT fuel rem st)) := by
  intro fuel
  induction fuel with
  | zero =>
    intro rem st h
    cases rem with
    | nil => exact h
    | cons a l => exact h
  | succ f ih =>
    intro rem st h
    cases rem with
    | nil => exact h
    | cons a l =>
      rw [runRoundsF_succ_cons]
      by_cases hready : readyOf st (a :: l) = []
      · rw [if_pos hready]
        exact h
      · rw [if_neg hready]
        exact ih _ _ (roundStep_good env k q allT st (a :: l) h)

theorem exists_min_rank (rank : String → Nat) :
    ∀ l : List Task, l ≠ [] →
      ∃ t ∈ l, ∀ u ∈ l, rank t.task_id ≤ rank u.task_id := by
  intro l
  induction l with
  | nil => intro h; exact absurd rfl h
  | cons a l ih =>
    intro _
    cases l with
    | nil =>
      refine ⟨a, List.mem_cons_self a [], ?_⟩
      intro u hu
      rcases List.mem_cons.1 hu with h | h
      · exact h ▸ le_refl _
      · cases h
    | cons b l2 =>
      rcases ih (by simp) with ⟨m, hm, hmin⟩
      by_cases hc : rank a.task_id ≤ rank m.task_id
      · refine ⟨a, List.mem_cons_self a _, ?_⟩
        intro u hu
        rcases List.mem_cons.1 hu with h | h
        · exact h ▸ le_refl _
        · exact le_trans hc (hmin u h)
      · refine ⟨m, List.mem_cons_of_mem a hm, ?_⟩
        intro u hu
        rcases List.mem_cons.1 hu with h | h
        · subst h; omega
        · exact hmin u h

/-- Under `RankOK`, a nonempty remainder always has a ready task: the
ready set never empties before the batch is finished. -/
theorem readyOf_ne_nil_of_rank (rank : String → Nat) (tasks : List Task)
    (st : EngState) (rem : List Task) (hrk : RankOK rank tasks)
    (hsub : ∀ t ∈ rem, t ∈ tasks)
    (hcov : ∀ u ∈ tasks, u ∈ rem ∨ u.task_id ∈ keys st.completed)
    (hne : rem ≠ []) :
    readyOf st rem ≠ [] := by
  rcases exists_min_rank rank rem hne with ⟨t, htm, hmin⟩
  have hready : t.dependencies.all (keyMem st.completed) = true := by
    rw [List.all_eq_true]
    intro d hd
    rcases hrk t (hsub t htm) d hd with ⟨⟨u, hu, hud⟩, hlt⟩
    have hnotrem : u ∉ rem := by
      intro hur
      have hmu := hmin u hur
      rw [hud] at hmu
      omega
    rcases hcov u hu with h | h
    · exact absurd h hnotrem
    · rw [keyMem_iff]
      rw [hud] at h
      exact h
  intro hempty
  have hmem : t ∈ readyOf st rem := List.mem_filter.2 ⟨htm, hready⟩
  rw [hempty] at hmem
  cases hmem

/-- Liveness: with acyclic in-batch dependencies and unique ids, the
attempt loop never gets stuck, and on exit the recorded statuses cover
exactly the batch's task ids. -/
theorem runRoundsF_completes (env : Env) (k : Nat) (q : String)
    (tasks : List Task) (rank : String → Nat)
    (hnd : (ids tasks).Nodup) (hrk : RankOK rank tasks) :
    ∀ (fuel : Nat) (rem : List Task) (st : EngState),
      rem.length ≤ fuel →
      List.Sublist rem tasks →
      (∀ u ∈ tasks, u ∈ rem ∨ u.task_id ∈ keys st.completed) →
      (keys st.completed ++ ids rem) ~ ids tasks →
      ∃ stf, runRoundsF env k q tasks fuel rem st = .done stf ∧
        keys stf.completed ~ ids tasks := by
  have htasks_nd : tasks.Nodup := List.Nodup.of_map Task.task_id hnd
  intro fuel
  induction fuel with
  | zero =>
    intro rem st hlen _ _ hperm
    have hnil : rem = [] := List.length_eq_zero.1 (Nat.le_zero.1 hlen)
    subst hnil
    exact ⟨st, rfl, by simpa [ids] using hperm⟩
  | succ f ih =>
    intro rem st hlen hsub hcov hperm
    cases rem with
    | nil => exact ⟨st, rfl, by simpa [ids] using hperm⟩
    | cons a l =>
      have hne : (a :: l) ≠ [] := by simp
      have hready : readyOf st (a :: l) ≠ [] :=
        readyOf_ne_nil_of_rank rank tasks st (a :: l) hrk
          (fun t ht => hsub.subset ht) hcov hne
      rw [runRoundsF_succ_cons, if_neg hready]
      rcases readyOf_ne_nil_head_mem hready with ⟨b, ts, hbts, hb⟩
      have hlt : (eraseAll (readyOf st (a :: l)) (a :: l)).length <
          (a :: l).length := by
        rw [hbts]
        exact eraseAll_length_lt b ts (a :: l) hb
      have hlen2 : (a :: l).length = l.length + 1 := rfl
      have hrem_nd : (a :: l).Nodup := hsub.nodup htasks_nd
      have hready_nd : (readyOf st (a :: l)).Nodup :=
        (List.filter_sublist (a :: l)).nodup hrem_nd
      have hready_sub : ∀ t ∈ readyOf st (a :: l), t ∈ (a :: l) :=
        fun t ht => List.mem_of_mem_filter ht
      apply ih (eraseAll (readyOf st (a :: l)) (a :: l))
        (roundStep env k q tasks st (readyOf st (a :: l)))
      · omega
      · exact ((eraseAll_sublist _ _).trans hsub)
      · intro u hu
        rcases hcov u hu with h | h
        · by_cases hu2 : u ∈ eraseAll (readyOf st (a :: l)) (a :: l)
          · exact Or.inl hu2
          · have hur : u ∈ readyOf st (a :: l) :=
              mem_of_not_mem_eraseAll _ _ h hu2
            refine Or.inr ?_
            rw [roundStep_keys]
            exact List.mem_append_right _ (List.mem_map_of_mem Task.task_id hur)
        · refine Or.inr ?_
          rw [roundStep_keys]
          exact List.mem_append_left _ h
      · rw [roundStep_keys, List.append_assoc]
        exact ((perm_ids_eraseAll (readyOf st (a :: l)) (a :: l) hrem_nd
          hready_nd hready_sub).append_left (keys st.completed)).trans hperm

/-! ## Context-builder containment lemmas -/

theorem mkPart_some_contains (d v : String) (dt : Task) :
    strInfix (pyUpper d) (mkPart d v (some dt)) ∧
    strInfix dt.agent (mkPart d v (some dt)) ∧
    strInfix dt.description (mkPart d v (some dt)) ∧
    strInfix v (mkPart d v (some dt)) := by
  refine ⟨?_, ?_, ?_, ?_⟩
  · exact strInfix_append_right _ (strInfix_append_right _
      (strInfix_append_right _ (strInfix_append_right _
      (strInfix_append_right _ (strInfix_append_right _
      (strInfix_append_right _ (strInfix_append_right _
      (strInfix_append_right _ (strInfix_append_right _
      (strInfix_append_left _ (strInfix_refl _)))))))))))
  · exact strInfix_append_right _ (strInfix_append_right _
      (strInfix_append_right _ (strInfix_append_right _
      (strInfix_append_right _ (strInfix_append_right _
      (strInfix_append_right _ (strInfix_append_right _
      (strInfix_append_left _ (strInfix_refl _)))))))))
  · exact strInfix_append_right _ (strInfix_append_right _
      (strInfix_append_right _ (strInfix_append_right _
      (strInfix_append_right _
      (strInfix_append_left _ (strInfix_refl _))))))
  · exact strInfix_append_right _ (strInfix_append_right _
      (strInfix_append_left _ (strInfix_refl _)))

theorem mkPart_contains_result (d v : String) :
    ∀ o : Option Task, strInfix v (mkPart d v o) := by
  intro o
  cases o with
  | some dt => exact (mkPart_some_contains d v dt).2.2.2
  | none => exact strInfix_append_left _ (strInfix_refl _)

theorem mkPart_mem_contextParts {t : Task} {results : StrMap}
    {allT : List Task} {d v : String}
    (hd : d ∈ t.dependencies) (hv : lookupStr results d = some v) :
    mkPart d v (allT.find? (fun a => a.task_id == d)) ∈
      contextParts t results allT := by
  unfold contextParts
  rw [List.mem_filterMap]
  exact ⟨d, hd, by rw [hv]; rfl⟩

theorem buildPrompt_contains_part {t : Task} {results : StrMap}
    {q : String} {allT : List Task} {x : String}
    (hx : x ∈ contextParts t results allT) :
    strInfix x (buildPrompt t results q allT) := by
  have hne : contextParts t results allT ≠ [] := List.ne_nil_of_mem hx
  show strInfix x
    (if (t.agent == "report_agent") = true then
      "ORIGINAL USER REQUEST: " ++ q ++ "\n\n" ++
        (if contextParts t results allT = [] then t.description
         else pyJoin joinSep (contextParts t results allT) ++ promptSuffix t)
     else
      (if contextParts t results allT = [] then t.description
       else pyJoin joinSep (contextParts t results allT) ++ promptSuffix t))
  rw [if_neg hne]
  by_cases hr : (t.agent == "report_agent") = true
  · rw [if_pos hr]
    exact strInfix_append_left _
      (strInfix_append_right _ (strInfix_pyJoin _ _ _ hx))
  · rw [if_neg hr]
    exact strInfix_append_right _ (strInfix_pyJoin _ _ _ hx)

/-- When a declared dependency of a dispatched task has a recorded
result text (success output or failure text), that text occurs
verbatim in the prompt built for the task. -/
theorem buildPrompt_contains_dep_result {t : Task} {results : StrMap}
    {q : String} {allT : List Task} {d v : String}
    (hd : d ∈ t.dependencies) (hv : lookupStr results d = some v) :
    strInfix v (buildPrompt t results q allT) := by
  have hp := @mkPart_mem_contextParts t results allT d v hd hv
  exact strInfix_trans (mkPart_contains_result d v _)
    (buildPrompt_contains_part hp)

theorem filterMap_lookup_eq_map (results : StrMap) (allT : List Task) :
    ∀ deps : List String, (∀ d ∈ deps, (lookupStr results d).isSome) →
      (deps.filterMap fun d => (lookupStr results d).map fun v =>
        mkPart d v (allT.find? (fun a => a.task_id == d))) =
      (deps.map fun d => mkPart d ((lookupStr results d).getD "")
        (allT.find? (fun a => a.task_id == d))) := by
  intro deps
  induction deps with
  | nil => intro _; rfl
  | cons d ds ih =>
    intro h
    have hd := h d (List.mem_cons_self d ds)
    rcases Option.isSome_iff_exists.1 hd with ⟨v, hv⟩
    rw [List.filterMap_cons, List.map_cons, hv,
      ih (fun e he => h e (List.mem_cons_of_mem d he))]
    rfl

/-- When every declared dependency has a recorded result, the context
parts are exactly one structured block per dependency, in the task's
declared dependency order. -/
theorem contextParts_all_resolved {t : Task} {results : StrMap}
    {allT : List Task}
    (h : ∀ d ∈ t.dependencies, (lookupStr results d).isSome) :
    contextParts t results allT = t.dependencies.map fun d =>
      mkPart d ((lookupStr results d).getD "")
        (allT.find? (fun a => a.task_id == d)) :=
  filterMap_lookup_eq_map results allT t.dependencies h

/-! ## Worker-pool, lookup and full-attempt lemmas -/

theorem poolStep_preserves (cap : Nat) {s1 s2 : PoolState}
    (h : PoolStep cap s1 s2) (hs : s1.running.length ≤ cap) :
    s2.running.length ≤ cap := by
  cases h with
  | start t qs run fin hlt => simpa using hlt
  | finish t qs run1 run2 fin =>
    simp at hs ⊢
    omega

theorem pool_reachable_bounded (cap : Nat) (ready : List Task) {s : PoolState}
    (h : Relation.ReflTransGen (PoolStep cap) (poolInit ready) s) :
    s.running.length ≤ cap := by
  induction h with
  | refl => simp [poolInit]
  | tail hr hstep ih => exact poolStep_preserves cap hstep ih

theorem lookupStr_mem {m : StrMap} {k : String} (h : k ∈ keys m) :
    ∃ v, lookupStr m k = some v ∧ (k, v) ∈ m := by
  induction m with
  | nil => cases h
  | cons p m ih =>
    by_cases hp : p.1 = k
    · refine ⟨p.2, ?_, ?_⟩
      · unfold lookupStr
        rw [List.find?_cons_of_pos _ (by simpa using hp)]
        rfl
      · have hpk : p = (k, p.2) := by
          rw [← hp]
        rw [← hpk]
        exact List.mem_cons_self p m
    · have hk : k ∈ keys m := by
        rcases List.mem_cons.1 h with h1 | h1
        · exact absurd h1.symm hp
        · exact h1
      rcases ih hk with ⟨v, h1, h2⟩
      refine ⟨v, ?_, List.mem_cons_of_mem p h2⟩
      unfold lookupStr at h1 ⊢
      rw [List.find?_cons_of_neg _ (by simpa using fun he => hp he)]
      exact h1

/-- Full-attempt instantiation of liveness and the state invariant:
from fresh state, with unique ids and acyclic in-batch dependencies,
the attempt finishes, covers every task id exactly once, and
satisfies the dispatch-ordering invariant. -/
theorem attempt_full (env : Env) (k : Nat) (q : String) (tasks : List Task)
    (rank : String → Nat) (hnd : (ids tasks).Nodup) (hrk : RankOK rank tasks) :
    ∃ stf, runAttemptFrom env k q tasks [] [] = .done stf ∧
      keys stf.completed ~ ids tasks ∧ GoodState stf := by
  rcases runRoundsF_completes env k q tasks rank hnd hrk tasks.length tasks
      freshState (le_refl _) (List.Sublist.refl tasks)
      (fun u hu => Or.inl hu) (by simp [keys, freshState]) with ⟨stf, h1, h2⟩
  have hg := runRoundsF_good env k q tasks tasks.length tasks freshState
    goodState_fresh
  rw [h1] at hg
  exact ⟨stf, h1, h2, hg⟩

/-! ## Claim theorems -/

/-- **C6.** The engine performs at most `max_retries + 1 = 3` attempts
(the index of the attempt it stops at is at most `max_retries = 2`),
and its result is exactly the outcome of that final attempt started
from empty status/result maps (`pureAttemptResult` runs the attempt
from `[]`/`[]`): nothing written by an earlier attempt is visible in
the output — only the immutable task list and the attempt counter
cross attempts. -/
theorem C6_retry_bound_and_reset (env : Env) (q : String) (tasks : List Task) :
    ∃ k, k ≤ max_retries ∧
      engineRun env q tasks = pureAttemptResult env q tasks k :=
  engineRun_pure env q tasks

/-- **C7.** The reflection gate classifies the evaluator's free text by
scanning the upper-cased output for literal marker tokens: `PROCEED`
accepts and stops; otherwise `RETRY` with attempts remaining restarts;
otherwise — no marker, or `RETRY` with no attempts left — it accepts
with a warning; and whenever the gate's decision is not a restart, the
retry loop returns the current attempt's results to the caller, so an
inconclusive verdict never blocks. -/
theorem C7_reflection_gate_classification (k : Nat) (text : String) :
    (strInfix "PROCEED" (pyUpper text) →
      classifyReflection k max_retries text = .proceedStop) ∧
    (¬ strInfix "PROCEED" (pyUpper text) → strInfix "RETRY" (pyUpper text) →
      k < max_retries → classifyReflection k max_retries text = .retryRestart) ∧
    (¬ strInfix "PROCEED" (pyUpper text) → ¬ strInfix "RETRY" (pyUpper text) →
      classifyReflection k max_retries text = .acceptWarn) ∧
    (¬ strInfix "PROCEED" (pyUpper text) → ¬ k < max_retries →
      classifyReflection k max_retries text = .acceptWarn) ∧
    (∀ (env : Env) (q : String) (tasks : List Task) (l : Nat) (c r : StrMap)
      (st : EngState),
      runAttemptFrom env k q tasks (if 0 < k then [] else c)
        (if 0 < k then [] else r) = .done st →
      shouldRunReflection tasks = true →
      classifyReflection k max_retries
        (env.reflect k (reflectionPrompt q st.results st.rounds.flatten)) ≠
        .retryRestart →
      retryLoopF env q tasks (l + 1) k c r = .finished k st (mkSummary st)) := by
  refine ⟨classifyReflection_proceed,
    classifyReflection_retry,
    fun hp hr => classifyReflection_warn hp (Or.inl hr),
    fun hp hk => classifyReflection_warn hp (Or.inr hk), ?_⟩
  intro env q tasks l c r st hrun hrefl hncl
  rw [retryLoopF_succ_done env q tasks l k c r st hrun, if_pos hrefl]
  cases hcl : classifyReflection k max_retries
      (env.reflect k (reflectionPrompt q st.results st.rounds.flatten)) with
  | retryRestart => exact absurd hcl hncl
  | proceedStop => rfl
  | acceptWarn => rfl

/-- Witness for C7: a `PROCEED` verdict accepts, and a non-restart
decision makes the loop return the attempt's results. -/
theorem C7_witness :
    classifyReflection 0 max_retries "All good PROCEED" = .proceedStop ∧
    retryLoopF okEnv "q" [tA, tB] (2 + 1) 0 [] [] =
      .finished 0
        ⟨[("task_a", "COMPLETED"), ("task_b", "COMPLETED")],
         [("task_a", "done"), ("task_b", "done")], [[tA], [tB]]⟩
        (mkSummary
          ⟨[("task_a", "COMPLETED"), ("task_b", "COMPLETED")],
           [("task_a", "done"), ("task_b", "done")], [[tA], [tB]]⟩) :=
  ⟨(C7_reflection_gate_classification 0 "All good PROCEED").1 (by decide),
   (C7_reflection_gate_classification 0 "x").2.2.2.2 okEnv "q" [tA, tB] 2 [] []
     ⟨[("task_a", "COMPLETED"), ("task_b", "COMPLETED")],
      [("task_a", "done"), ("task_b", "done")], [[tA], [tB]]⟩
     (by decide) (by decide) (by decide)⟩

/-- **C9.** `PROCEED` takes precedence over `RETRY` when the
evaluator's output contains both marker tokens (the batch is accepted,
no retry), and the scan is case-insensitive because the gate searches
the upper-cased output: lower-case `proceed` or `retry` trigger the
same branches. -/
theorem C9_proceed_precedence_case_insensitive (k : Nat)
    (text pre post : String) :
    (strInfix "PROCEED" (pyUpper text) → strInfix "RETRY" (pyUpper text) →
      classifyReflection k max_retries text = .proceedStop) ∧
    (classifyReflection k max_retries (pre ++ "proceed" ++ post) =
      .proceedStop) ∧
    (k < max_retries →
      ¬ strInfix "PROCEED" (pyUpper (pre ++ "retry" ++ post)) →
      classifyReflection k max_retries (pre ++ "retry" ++ post) =
        .retryRestart) := by
  refine ⟨fun hp _ => classifyReflection_proceed hp, ?_, ?_⟩
  · apply classifyReflection_proceed
    rw [pyUpper_append, pyUpper_append]
    have hmid : pyUpper "proceed" = "PROCEED" := by decide
    rw [hmid]
    exact strInfix_mid _ _ _
  · intro hk hp
    apply classifyReflection_retry hp ?_ hk
    rw [pyUpper_append, pyUpper_append]
    have hmid : pyUpper "retry" = "RETRY" := by decide
    rw [hmid]
    exact strInfix_mid _ _ _

/-- Witness for C9: lower-case markers trigger the branches. -/
theorem C9_witness :
    classifyReflection 0 max_retries ("please " ++ "proceed" ++ " now") =
      .proceedStop ∧
    classifyReflection 0 max_retries ("please " ++ "retry" ++ " now") =
      .retryRestart :=
  ⟨(C9_proceed_precedence_case_insensitive 0 "x" "please " " now").2.1,
   (C9_proceed_precedence_case_insensitive 0 "x" "please " " now").2.2
     (by decide) (by decide)⟩

/-- **C10.** Dispatching a ready set of `N` tasks through the worker
pool (`ThreadPoolExecutor` with `max_workers = min(N, 3)`) keeps at
most `min(N, 3) ≤ 3` tasks simultaneously in flight in every reachable
pool state, for every `N`; queued tasks beyond the cap can only start
once a slot frees (the `start` transition's guard). -/
theorem C10_concurrency_cap (ready : List Task) (s : PoolState)
    (h : Relation.ReflTransGen (PoolStep (max_workers ready))
      (poolInit ready) s) :
    s.running.length ≤ max_workers ready ∧ max_workers ready ≤ 3 :=
  ⟨pool_reachable_bounded _ ready h, min_le_right _ _⟩

/-- Witness for C10: after starting one of two submitted tasks, the
in-flight count respects the cap. -/
theorem C10_witness :
    (PoolState.mk [tB] [tA] []).running.length ≤ max_workers [tA, tB] ∧
    max_workers [tA, tB] ≤ 3 :=
  C10_concurrency_cap [tA, tB] ⟨[tB], [tA], []⟩
    (Relation.ReflTransGen.single (PoolStep.start tA [tB] [] [] (by decide)))

/-- **C2.** In every attempt (each attempt runs from fresh state, cf.
`C6_retry_bound_and_reset`) and whatever the executors return: every
dispatched ready set consists only of tasks all of whose declared
dependencies already carry a status recorded by strictly earlier
rounds (`roundsOKFrom []` over the dispatch rounds, with the recorded
key set equal to the ids dispatched so far), and every recorded status
is terminal (`COMPLETED` or `FAILED`) — so a task is never in flight
while one of its dependencies is unresolved. -/
theorem C2_no_dispatch_before_deps_terminal (env : Env) (k : Nat)
    (q : String) (tasks : List Task) :
    roundsOKFrom []
      (attemptState (runAttemptFrom env k q tasks [] [])).rounds ∧
    keys (attemptState (runAttemptFrom env k q tasks [] [])).completed =
      ids (attemptState (runAttemptFrom env k q tasks [] [])).rounds.flatten ∧
    ∀ p ∈ (attemptState (runAttemptFrom env k q tasks [] [])).completed,
      p.2 = "COMPLETED" ∨ p.2 = "FAILED" := by
  rcases runRoundsF_good env k q tasks tasks.length tasks freshState
    goodState_fresh with ⟨h1, h2, h3⟩
  exact ⟨h3, h1, h2⟩

/-- Witness for C2 on a concrete two-round run. -/
theorem C2_witness :
    roundsOKFrom []
      (attemptState (runAttemptFrom okEnv 0 "q" [tA, tB] [] [])).rounds ∧
    keys (attemptState (runAttemptFrom okEnv 0 "q" [tA, tB] [] [])).completed =
      ids (attemptState
        (runAttemptFrom okEnv 0 "q" [tA, tB] [] [])).rounds.flatten ∧
    ∀ p ∈ (attemptState (runAttemptFrom okEnv 0 "q" [tA, tB] [] [])).completed,
      p.2 = "COMPLETED" ∨ p.2 = "FAILED" :=
  C2_no_dispatch_before_deps_terminal okEnv 0 "q" [tA, tB]

/-- **C5.** (1) With unique ids and acyclic in-batch dependencies
(witnessed by a rank function), every attempt finishes `done` — never
an infinite loop — with the recorded status keys a permutation of the
batch's task ids (each task gets exactly one status, no silent drop)
and every status terminal.  (2) If the ready set is ever empty while
tasks remain, the attempt stops at once with a structural failure. -/
theorem C5_attempt_termination :
    (∀ (env : Env) (k : Nat) (q : String) (tasks : List Task)
      (rank : String → Nat), (ids tasks).Nodup → RankOK rank tasks →
      ∃ stf, runAttemptFrom env k q tasks [] [] = .done stf ∧
        keys stf.completed ~ ids tasks ∧
        (∀ p ∈ stf.completed, p.2 = "COMPLETED" ∨ p.2 = "FAILED")) ∧
    (∀ (env : Env) (k : Nat) (q : String) (allT : List Task) (fuel : Nat)
      (rem : List Task) (st : EngState), rem ≠ [] → readyOf st rem = [] →
      runRoundsF env k q allT fuel rem st = .stuck st) := by
  constructor
  · intro env k q tasks rank hnd hrk
    rcases attempt_full env k q tasks rank hnd hrk with ⟨stf, h1, h2, hg⟩
    exact ⟨stf, h1, h2, hg.2.1⟩
  · exact runRoundsF_stuck_of_no_ready

/-- Witness for C5: a dependent chain finishes with one terminal
status per task, and a dangling dependency stalls structurally. -/
theorem C5_witness :
    (∃ stf, runAttemptFrom okEnv 0 "q" [tA, tB] [] [] = .done stf ∧
      keys stf.completed ~ ids [tA, tB] ∧
      (∀ p ∈ stf.completed, p.2 = "COMPLETED" ∨ p.2 = "FAILED")) ∧
    runRoundsF okEnv 0 "q" [tDangling] 1 [tDangling] freshState =
      .stuck freshState :=
  ⟨C5_attempt_termination.1 okEnv 0 "q" [tA, tB]
     (fun s => if s == "task_b" then 1 else 0) (by decide)
     (by unfold RankOK; decide),
   C5_attempt_termination.2 okEnv 0 "q" [tDangling] 1 [tDangling] freshState
     (by decide) (by decide)⟩

/-- **C3.** Executor failures are absorbed inside the dispatcher:
(1) a raised exception is recorded as terminal `FAILED` with
`"Error: " ++ text` as the task's result; (2) the round records every
ready task regardless of individual outcomes, so a failure does not
abort siblings; (3) the batch still runs to completion, covering every
task id — dependents of a failed task are still dispatched; (4) a
dependency whose recorded result is an error text has that exact text
embedded in the dependent's built prompt. -/
theorem C3_executor_failure_isolated :
    (∀ (env : Env) (k : Nat) (q : String) (allT : List Task)
      (st : EngState) (t : Task) (e : String),
      executeSingleTask env k t st.results q allT = .error e →
      processTask env k q allT st t =
        { st with completed := st.completed ++ [(t.task_id, "FAILED")]
                  results := st.results ++ [(t.task_id, "Error: " ++ e)] }) ∧
    (∀ (env : Env) (k : Nat) (q : String) (allT : List Task)
      (st : EngState) (ready : List Task),
      keys (roundStep env k q allT st ready).completed =
        keys st.completed ++ ids ready) ∧
    (∀ (env : Env) (k : Nat) (q : String) (tasks : List Task)
      (rank : String → Nat), (ids tasks).Nodup → RankOK rank tasks →
      ∃ stf, runAttemptFrom env k q tasks [] [] = .done stf ∧
        keys stf.completed ~ ids tasks) ∧
    (∀ (t : Task) (results : StrMap) (q : String) (allT : List Task)
      (d e : String), d ∈ t.dependencies →
      lookupStr results d = some ("Error: " ++ e) →
      strInfix ("Error: " ++ e) (buildPrompt t results q allT)) := by
  refine ⟨?_, ?_, ?_, ?_⟩
  · intro env k q allT st t e h
    unfold processTask
    rw [h]
  · intro env k q allT st ready
    exact roundStep_keys env k q allT st ready
  · intro env k q tasks rank hnd hrk
    rcases attempt_full env k q tasks rank hnd hrk with ⟨stf, h1, h2, _⟩
    exact ⟨stf, h1, h2⟩
  · intro t results q allT d e hd hv
    exact buildPrompt_contains_dep_result hd hv

/-- Witness for C3: with an executor that always raises `boom`, `tA`
is recorded `FAILED` with `Error: boom`, the batch still covers both
tasks, and `tB`'s prompt embeds `tA`'s error text. -/
theorem C3_witness :
    processTask failEnv 0 "q" [tA, tB] freshState tA =
      { freshState with
        completed := freshState.completed ++ [(tA.task_id, "FAILED")]
        results := freshState.results ++ [(tA.task_id, "Error: " ++ "boom")] } ∧
    keys (roundStep failEnv 0 "q" [tA, tB] freshState [tA]).completed =
      keys freshState.completed ++ ids [tA] ∧
    (∃ stf, runAttemptFrom failEnv 0 "q" [tA, tB] [] [] = .done stf ∧
      keys stf.completed ~ ids [tA, tB]) ∧
    strInfix ("Error: " ++ "boom")
      (buildPrompt tB [("task_a", "Error: boom")] "q" [tA, tB]) :=
  ⟨C3_executor_failure_isolated.1 failEnv 0 "q" [tA, tB] freshState tA "boom"
     (by decide),
   C3_executor_failure_isolated.2.1 failEnv 0 "q" [tA, tB] freshState [tA],
   C3_executor_failure_isolated.2.2.1 failEnv 0 "q" [tA, tB]
     (fun s => if s == "task_b" then 1 else 0) (by decide)
     (by unfold RankOK; decide),
   C3_executor_failure_isolated.2.2.2 tB [("task_a", "Error: boom")] "q"
     [tA, tB] "task_a" "boom" (by decide) (by decide)⟩

/-- **C1, counterexample.** The batch `[tBogus]` contains a task whose
executor name `bogus_agent` resolves to no known executor, yet the
engine does not fail fast with a batch-fatal structural error: it
finishes normally at attempt 0 and the defect is recorded exactly as
that one task's per-task `FAILED` status (result text
`Error: Unknown agent: 'bogus_agent'`) in the final summary — the
outcome the claim rules out. -/
theorem C1_counterexample :
    engineRun okEnv "q" [tBogus] =
      .finished 0
        ⟨[("task_x", "FAILED")],
         [("task_x",
           "Error: Unknown agent: " ++ squote ++ "bogus_agent" ++ squote)],
         [[tBogus]]⟩
        [("task_x", "bogus_agent", "FAILED")] := by
  decide

/-- **C1, amended.** A task whose `executor_name` does not resolve to
a known executor is not a batch-fatal structural error:
`_execute_single_task` raises `Unknown agent: '...'` before invoking
any executor, the dispatch loop absorbs the exception exactly like an
executor failure — the task is recorded `FAILED` with
`"Error: Unknown agent: '...'"` as its result text — and (given unique
ids and acyclic dependencies) the batch still runs to completion
rather than aborting; only an empty ready set with tasks remaining
aborts the batch structurally. -/
theorem C1_amended_unknown_executor_is_per_task_failure (env : Env)
    (k : Nat) (q : String) (allT : List Task) (st : EngState) (t : Task)
    (tasks : List Task) (rank : String → Nat)
    (hua : agent_configs.contains t.agent = false)
    (hnd : (ids tasks).Nodup) (hrk : RankOK rank tasks) :
    executeSingleTask env k t st.results q allT =
      .error (unknownAgentMsg t.agent) ∧
    processTask env k q allT st t =
      { st with completed := st.completed ++ [(t.task_id, "FAILED")]
                results := st.results ++
                  [(t.task_id, "Error: " ++ unknownAgentMsg t.agent)] } ∧
    ∃ stf, runAttemptFrom env k q tasks [] [] = .done stf := by
  have h1 : executeSingleTask env k t st.results q allT =
      .error (unknownAgentMsg t.agent) := by
    have hne : ¬ (agent_configs.contains t.agent = true) := by
      rw [hua]
      exact Bool.false_ne_true
    unfold executeSingleTask
    rw [if_neg hne]
  refine ⟨h1, ?_, ?_⟩
  · unfold processTask
    rw [h1]
  · rcases attempt_full env k q tasks rank hnd hrk with ⟨stf, hdone, _, _⟩
    exact ⟨stf, hdone⟩

/-- Witness for the amended C1 at the concrete one-task batch. -/
theorem C1_witness :
    executeSingleTask okEnv 0 tBogus freshState.results "q" [tBogus] =
      .error (unknownAgentMsg tBogus.agent) ∧
    processTask okEnv 0 "q" [tBogus] freshState tBogus =
      { freshState with
        completed := freshState.completed ++ [(tBogus.task_id, "FAILED")]
        results := freshState.results ++
          [(tBogus.task_id, "Error: " ++ unknownAgentMsg tBogus.agent)] } ∧
    ∃ stf, runAttemptFrom okEnv 0 "q" [tBogus] [] [] = .done stf :=
  C1_amended_unknown_executor_is_per_task_failure okEnv 0 "q" [tBogus]
    freshState tBogus [tBogus] (fun _ => 0) (by decide) (by decide)
    (by unfold RankOK; decide)

theorem mkSummary_map_fst (st : EngState) :
    (mkSummary st).map (fun r => r.1) = ids st.rounds.flatten := by
  unfold mkSummary ids
  rw [List.map_map]
  rfl

/-- **C4, counterexample.** In the batch `[tA, tDangling]` the task
`task_a` is executed (it is the first dispatch round), but because
`task_d`'s dependency dangles the engine takes the structural-error
`return` (main.py lines 227-231): the run ends with no summary at all,
so the final outcome does not enumerate the executed task's status,
and no overall verdict of any kind is produced. -/
theorem C4_counterexample :
    engineRun okEnv "q" [tA, tDangling] =
      .structuralError 0
        ⟨[("task_a", "COMPLETED")], [("task_a", "done")], [[tA]]⟩ := by
  decide

/-- **C4, amended.** On runs that complete without a structural error
(guaranteed under unique ids and acyclic in-batch dependencies), the
final summary enumerates every task of the batch exactly once, in the
order the engine recorded them as finished, each with its recorded
terminal status.  The code computes no explicit overall
Success/Failure verdict; the verdict described by the spec is
derivable: some enumerated status differs from `COMPLETED` exactly
when some enumerated status is `FAILED`. -/
theorem C4_amended_summary_enumerates_every_task (env : Env) (q : String)
    (tasks : List Task) (rank : String → Nat)
    (hnd : (ids tasks).Nodup) (hrk : RankOK rank tasks) :
    ∃ k stf, k ≤ max_retries ∧
      engineRun env q tasks = .finished k stf (mkSummary stf) ∧
      (mkSummary stf).map (fun r => r.1) ~ ids tasks ∧
      (∀ r ∈ mkSummary stf, (r.1, r.2.2) ∈ stf.completed) ∧
      (∀ r ∈ mkSummary stf, r.2.2 = "COMPLETED" ∨ r.2.2 = "FAILED") ∧
      ((∃ r ∈ mkSummary stf, r.2.2 ≠ "COMPLETED") ↔
        (∃ r ∈ mkSummary stf, r.2.2 = "FAILED")) := by
  rcases engineRun_pure env q tasks with ⟨k, hk, heq⟩
  rcases attempt_full env k q tasks rank hnd hrk with
    ⟨stf, hdone, hperm, hkeys, hvals, _⟩
  have hmem : ∀ r ∈ mkSummary stf, (r.1, r.2.2) ∈ stf.completed := by
    intro r hr
    rcases List.mem_map.1 hr with ⟨t, ht, hrt⟩
    have hid : t.task_id ∈ keys stf.completed := by
      rw [hkeys]
      exact List.mem_map_of_mem Task.task_id ht
    rcases lookupStr_mem hid with ⟨v, hl, hm⟩
    subst hrt
    simpa [hl] using hm
  have hterm : ∀ r ∈ mkSummary stf, r.2.2 = "COMPLETED" ∨ r.2.2 = "FAILED" :=
    fun r hr => hvals (r.1, r.2.2) (hmem r hr)
  refine ⟨k, stf, hk, ?_, ?_, hmem, hterm, ?_⟩
  · rw [heq]
    unfold pureAttemptResult
    rw [hdone]
  · rw [mkSummary_map_fst, ← hkeys]
    exact hperm
  · constructor
    · rintro ⟨r, hr, hne⟩
      rcases hterm r hr with h | h
      · exact absurd h hne
      · exact ⟨r, hr, h⟩
    · rintro ⟨r, hr, hf⟩
      refine ⟨r, hr, ?_⟩
      rw [hf]
      decide

/-- Witness for the amended C4 on a concrete two-task batch. -/
theorem C4_witness :
    ∃ k stf, k ≤ max_retries ∧
      engineRun okEnv "q" [tA, tB] = .finished k stf (mkSummary stf) ∧
      (mkSummary stf).map (fun r => r.1) ~ ids [tA, tB] ∧
      (∀ r ∈ mkSummary stf, (r.1, r.2.2) ∈ stf.completed) ∧
      (∀ r ∈ mkSummary stf, r.2.2 = "COMPLETED" ∨ r.2.2 = "FAILED") ∧
      ((∃ r ∈ mkSummary stf, r.2.2 ≠ "COMPLETED") ↔
        (∃ r ∈ mkSummary stf, r.2.2 = "FAILED")) :=
  C4_amended_summary_enumerates_every_task okEnv "q" [tA, tB]
    (fun s => if s == "task_b" then 1 else 0) (by decide)
    (by unfold RankOK; decide)

/-- **C8, counterexample.** Two deviations from the claim.  (1) A
dependency-free `report_agent` task does not receive its description
unmodified: the original user request is prefixed.  (2) For a task
with a dependency, the built blob does not contain the dependency's id
as declared — the id is upper-cased (`TASK_A` appears, `task_a` does
not). -/
theorem C8_counterexample :
    buildPrompt tReport [] "quux" [tReport] =
      "ORIGINAL USER REQUEST: quux\n\nwrite it up" ∧
    buildPrompt tReport [] "quux" [tReport] ≠ tReport.description ∧
    ¬ strInfix "task_a" (buildPrompt tB [("task_a", "RESULT")] "q" [tA, tB]) ∧
    strInfix (pyUpper "task_a")
      (buildPrompt tB [("task_a", "RESULT")] "q" [tA, tB]) := by
  refine ⟨by decide, by decide,
    by set_option maxRecDepth 10000 in decide,
    by set_option maxRecDepth 10000 in decide⟩

/-- **C8, amended.** (i) A task with no dependencies and an executor
other than `report_agent` is prompted with exactly its description;
(ii) a dependency-free `report_agent` task additionally gets the
original user request prefixed; (iii) when every declared dependency
has a recorded result, the context blob consists of one structured
block per dependency in declared order; (iv) each such block — and
hence the prompt — contains the dependency's id upper-cased, its
executor name, its original description, and its recorded result
text. -/
theorem C8_amended_prompt_structure :
    (∀ (t : Task) (results : StrMap) (q : String) (allT : List Task),
      t.dependencies = [] → (t.agent == "report_agent") = false →
      buildPrompt t results q allT = t.description) ∧
    (∀ (t : Task) (results : StrMap) (q : String) (allT : List Task),
      t.dependencies = [] → (t.agent == "report_agent") = true →
      buildPrompt t results q allT =
        "ORIGINAL USER REQUEST: " ++ q ++ "\n\n" ++ t.description) ∧
    (∀ (t : Task) (results : StrMap) (allT : List Task),
      (∀ d ∈ t.dependencies, (lookupStr results d).isSome) →
      contextParts t results allT = t.dependencies.map fun d =>
        mkPart d ((lookupStr results d).getD "")
          (allT.find? (fun a => a.task_id == d))) ∧
    (∀ (t : Task) (results : StrMap) (q : String) (allT : List Task)
      (d v : String) (dt : Task), d ∈ t.dependencies →
      lookupStr results d = some v →
      allT.find? (fun a => a.task_id == d) = some dt →
      strInfix (pyUpper d) (buildPrompt t results q allT) ∧
      strInfix dt.agent (buildPrompt t results q allT) ∧
      strInfix dt.description (buildPrompt t results q allT) ∧
      strInfix v (buildPrompt t results q allT)) := by
  refine ⟨?_, ?_, ?_, ?_⟩
  · intro t results q allT hdeps hagent
    simp [buildPrompt, contextParts, hdeps, hagent]
  · intro t results q allT hdeps hagent
    simp [buildPrompt, contextParts, hdeps, hagent]
  · intro t results allT h
    exact contextParts_all_resolved h
  · intro t results q allT d v dt hd hv hfind
    have hparts := @mkPart_mem_contextParts t results allT d v hd hv
    rw [hfind] at hparts
    rcases mkPart_some_contains d v dt with ⟨h1, h2, h3, h4⟩
    exact ⟨strInfix_trans h1 (buildPrompt_contains_part hparts),
      strInfix_trans h2 (buildPrompt_contains_part hparts),
      strInfix_trans h3 (buildPrompt_contains_part hparts),
      strInfix_trans h4 (buildPrompt_contains_part hparts)⟩

/-- Witness for the amended C8 at concrete tasks. -/
theorem C8_witness :
    buildPrompt tA [] "q" [tA, tB] = tA.description ∧
    buildPrompt tReport [] "q" [tReport] =
      "ORIGINAL USER REQUEST: " ++ "q" ++ "\n\n" ++ tReport.description ∧
    contextParts tB [("task_a", "RESULT")] [tA, tB] =
      tB.dependencies.map (fun d =>
        mkPart d ((lookupStr [("task_a", "RESULT")] d).getD "")
          ([tA, tB].find? (fun a => a.task_id == d))) ∧
    (strInfix (pyUpper "task_a")
        (buildPrompt tB [("task_a", "RESULT")] "q" [tA, tB]) ∧
      strInfix tA.agent (buildPrompt tB [("task_a", "RESULT")] "q" [tA, tB]) ∧
      strInfix tA.description
        (buildPrompt tB [("task_a", "RESULT")] "q" [tA, tB]) ∧
      strInfix "RESULT" (buildPrompt tB [("task_a", "RESULT")] "q" [tA, tB])) :=
  ⟨C8_amended_prompt_structure.1 tA [] "q" [tA, tB] rfl (by decide),
   C8_amended_prompt_structure.2.1 tReport [] "q" [tReport] rfl (by decide),
   C8_amended_prompt_structure.2.2.1 tB [("task_a", "RESULT")] [tA, tB]
     (by decide),
   C8_amended_prompt_structure.2.2.2 tB [("task_a", "RESULT")] "q" [tA, tB]
     "task_a" "RESULT" tA (by decide) (by decide) (by decide)⟩

end MarketingAgent

